import Mathlib

/-
Verification of the swoupon tokenomics formula module (swoupon_calc.py).

The module is a pure function library over IEEE doubles; we embed it over
the real numbers.  Each Python function that can raise becomes a Lean
function into an error monad: `ValueError` and `ZeroDivisionError` become
the two constructors of `CalcError`, and Python exception propagation is
`Except.bind`.
-/

namespace Swoupon

noncomputable section

/-- Source constant `C_0_01 = 0.01`. -/
def C_0_01 : ℝ := 0.01

/-- Source constant `C_0_02 = 0.02`. -/
def C_0_02 : ℝ := 0.02

/-- Source constant `C_NEG_0_00005 = -0.00005`. -/
def C_NEG_0_00005 : ℝ := -0.00005

/-- Source constant `C_0_1 = 0.1`. -/
def C_0_1 : ℝ := 0.1

/-- Source constant `POWER_EXPONENT = 0.3`. -/
def POWER_EXPONENT : ℝ := 0.3

/-- Source constant `MAX_TI_FRACTION_OF_TR = 1/3`. -/
def MAX_TI_FRACTION_OF_TR : ℝ := 1/3

/-- The two Python exceptions the module can raise. -/
inductive CalcError where
  | valueError : CalcError
  | zeroDivisionError : CalcError
  deriving DecidableEq

/-- Python `_F(v)`: raises `ValueError` on `v < 0`, otherwise returns
`C_0_01 + (C_0_02 * exp(C_NEG_0_00005 * v))`. -/
def _F (v : ℝ) : Except CalcError ℝ :=
  if v < 0 then .error .valueError
  else .ok (C_0_01 + (C_0_02 * Real.exp (C_NEG_0_00005 * v)))

/-- Python `calculate_TR(v)`: `ValueError` on `v < 0`; returns `0.0` when `v == 0`;
`ZeroDivisionError` if `C_0_1 == 0` (guard); otherwise `_F(v) * v / C_0_1`. -/
def calculate_TR (v : ℝ) : Except CalcError ℝ :=
  if v < 0 then .error .valueError
  else if v = 0 then .ok 0.0
  else if C_0_1 = 0 then .error .zeroDivisionError
  else (_F v).bind fun f_v => .ok (f_v * v / C_0_1)

/-- Python `calculate_potential_TI(v)`: `ValueError` on `v < 0`; `ZeroDivisionError`
if `C_0_1 == 0` (guard); otherwise `(1 + v) ^ POWER_EXPONENT / C_0_1`. -/
def calculate_potential_TI (v : ℝ) : Except CalcError ℝ :=
  if v < 0 then .error .valueError
  else if C_0_1 = 0 then .error .zeroDivisionError
  else .ok (((1 + v) ^ POWER_EXPONENT) / C_0_1)

/-- Python `calculate_TR_and_TI(v)`: validates `v`, computes TR, potential TI, the
cap `MAX_TI_FRACTION_OF_TR * TR`, takes the min with the cap and floors the
result at `0.0`, returning the pair `(TR, TI)`. -/
def calculate_TR_and_TI (v : ℝ) : Except CalcError (ℝ × ℝ) :=
  if v < 0 then .error .valueError
  else
    (calculate_TR v).bind fun tr_value =>
      (calculate_potential_TI v).bind fun potential_ti_value =>
        let ti_upper_bound := MAX_TI_FRACTION_OF_TR * tr_value
        let ti_value := min potential_ti_value ti_upper_bound
        let ti_value := max 0.0 ti_value
        .ok (tr_value, ti_value)

/-- Variant of `calculate_TR_and_TI` with the `max(0.0, ...)` floor of line 80 removed
(used to state that the floor is a no-op). -/
def calculate_TR_and_TI_nofloor (v : ℝ) : Except CalcError (ℝ × ℝ) :=
  if v < 0 then .error .valueError
  else
    (calculate_TR v).bind fun tr_value =>
      (calculate_potential_TI v).bind fun potential_ti_value =>
        let ti_upper_bound := MAX_TI_FRACTION_OF_TR * tr_value
        let ti_value := min potential_ti_value ti_upper_bound
        .ok (tr_value, ti_value)

/-! Pure value-level forms of the four computations on the valid domain,
used to state and prove properties. -/

/-- The value `_F` returns on the valid domain. -/
def F_val (v : ℝ) : ℝ := C_0_01 + (C_0_02 * Real.exp (C_NEG_0_00005 * v))

/-- The value `calculate_TR` returns on the valid domain. -/
def TR_val (v : ℝ) : ℝ := F_val v * v / C_0_1

/-- The value `calculate_potential_TI` returns on the valid domain. -/
def potTI_val (v : ℝ) : ℝ := ((1 + v) ^ POWER_EXPONENT) / C_0_1

/-- The reward cap `MAX_TI_FRACTION_OF_TR * TR`. -/
def cap_val (v : ℝ) : ℝ := MAX_TI_FRACTION_OF_TR * TR_val v

/-- The final reward component of `calculate_TR_and_TI` on the valid domain. -/
def TI_val (v : ℝ) : ℝ := max 0 (min (potTI_val v) (cap_val v))

/-- The capping ratio `F(v) * v / (1+v)^POWER_EXPONENT`; the reward is capped
exactly while `phi v < 3` and uncapped once `3 ≤ phi v`. -/
def phi (v : ℝ) : ℝ := F_val v * v * ((1 + v) ^ (-POWER_EXPONENT))

/-! Spec-side reference pipeline, modelled from the spec text of section 4.1
(for the refinement claim C4 only; everything else is from the source). -/

/-- Modelled from the spec: `UnitFactor(V) = c1 + c2 * exp(k * V)`. -/
def spec_UnitFactor (v : ℝ) : ℝ := 0.01 + 0.02 * Real.exp ((-0.00005) * v)

/-- Modelled from the spec: `Cost(0) = 0.0` exactly (short-circuited), else
`UnitFactor(V) * V / c3`. -/
def spec_Cost (v : ℝ) : ℝ := if v = 0 then 0.0 else spec_UnitFactor v * v / 0.1

/-- Modelled from the spec: `PotentialReward(V) = (1 + V)^p / c3`. -/
def spec_PotentialReward (v : ℝ) : ℝ := ((1 + v) ^ (0.3 : ℝ)) / 0.1

/-- Modelled from the spec: `Evaluate(V) = (TR, max(0, min(TI_pot, (1/3)*TR)))`. -/
def spec_Evaluate (v : ℝ) : ℝ × ℝ :=
  (spec_Cost v, max 0 (min (spec_PotentialReward v) ((1/3) * spec_Cost v)))

/-! Rational forms of the constants. -/

theorem C_0_01_eq : C_0_01 = 1/100 := by norm_num [C_0_01]

theorem C_0_02_eq : C_0_02 = 1/50 := by norm_num [C_0_02]

theorem C_NEG_0_00005_eq : C_NEG_0_00005 = -(1/20000) := by norm_num [C_NEG_0_00005]

theorem C_0_1_eq : C_0_1 = 1/10 := by norm_num [C_0_1]

theorem POWER_EXPONENT_eq : POWER_EXPONENT = 3/10 := by norm_num [POWER_EXPONENT]

theorem MAX_TI_FRACTION_eq : MAX_TI_FRACTION_OF_TR = 1/3 := rfl

theorem C_0_1_ne : C_0_1 ≠ 0 := by rw [C_0_1_eq]; norm_num

/-! Evaluation of the four operations on the valid domain. -/

theorem F_eval {v : ℝ} (hv : 0 ≤ v) : _F v = .ok (F_val v) := by
  simp only [_F, F_val, if_neg (not_lt.mpr hv)]

theorem calculate_TR_eval {v : ℝ} (hv : 0 ≤ v) : calculate_TR v = .ok (TR_val v) := by
  by_cases hz : v = 0
  · subst hz
    simp only [calculate_TR, TR_val, if_neg (lt_irrefl (0:ℝ)), if_pos rfl]
    norm_num
  · simp only [calculate_TR, if_neg (not_lt.mpr hv), if_neg hz, if_neg C_0_1_ne,
      F_eval hv, Except.bind, TR_val]

theorem calculate_potential_TI_eval {v : ℝ} (hv : 0 ≤ v) :
    calculate_potential_TI v = .ok (potTI_val v) := by
  simp only [calculate_potential_TI, if_neg (not_lt.mpr hv), if_neg C_0_1_ne, potTI_val]

theorem calculate_TR_and_TI_eval {v : ℝ} (hv : 0 ≤ v) :
    calculate_TR_and_TI v = .ok (TR_val v, TI_val v) := by
  simp only [calculate_TR_and_TI, if_neg (not_lt.mpr hv), calculate_TR_eval hv,
    calculate_potential_TI_eval hv, Except.bind, TI_val, cap_val]
  norm_num

theorem calculate_TR_and_TI_nofloor_eval {v : ℝ} (hv : 0 ≤ v) :
    calculate_TR_and_TI_nofloor v = .ok (TR_val v, min (potTI_val v) (cap_val v)) := by
  simp only [calculate_TR_and_TI_nofloor, if_neg (not_lt.mpr hv), calculate_TR_eval hv,
    calculate_potential_TI_eval hv, Except.bind, cap_val]

/-! Basic sign facts. -/

theorem F_val_gt : ∀ v : ℝ, C_0_01 < F_val v := by
  intro v
  have h := Real.exp_pos (C_NEG_0_00005 * v)
  rw [F_val, C_0_02_eq]
  nlinarith [h]

theorem F_val_pos (v : ℝ) : 0 < F_val v := by
  have h := F_val_gt v
  rw [C_0_01_eq] at h
  linarith

theorem TR_val_nonneg {v : ℝ} (hv : 0 ≤ v) : 0 ≤ TR_val v := by
  rw [TR_val, C_0_1_eq]
  have := F_val_pos v
  positivity

theorem potTI_val_pos {v : ℝ} (hv : 0 ≤ v) : 0 < potTI_val v := by
  rw [potTI_val, C_0_1_eq]
  have h1 : (0:ℝ) < 1 + v := by linarith
  have := Real.rpow_pos_of_pos h1 POWER_EXPONENT
  positivity

theorem cap_val_nonneg {v : ℝ} (hv : 0 ≤ v) : 0 ≤ cap_val v := by
  rw [cap_val, MAX_TI_FRACTION_eq]
  have := TR_val_nonneg hv
  linarith

theorem TR_val_zero : TR_val 0 = 0 := by
  rw [TR_val]
  ring

/-! Analytic groundwork: a cubic lower bound on `exp`, and positivity of the
derivatives of `F(v)*v` and of the capping ratio `phi`. -/

theorem one_add_third_cube_le_exp {y : ℝ} (hy : 0 ≤ y) : (1 + y/3)^3 ≤ Real.exp y := by
  have h1 : (0:ℝ) ≤ 1 + y/3 := by linarith
  have h2 : 1 + y/3 ≤ Real.exp (y/3) := by
    have := Real.add_one_le_exp (y/3)
    linarith
  calc (1 + y/3)^3 ≤ (Real.exp (y/3))^3 := pow_le_pow_left₀ h1 h2 3
    _ = Real.exp y := by
        rw [← Real.exp_nat_mul]
        push_cast
        ring_nf

theorem exp_prod_one (v : ℝ) : Real.exp (v/20000) * Real.exp (-(v/20000)) = 1 := by
  rw [← Real.exp_add]
  have h : v/20000 + -(v/20000) = 0 := by ring
  rw [h, Real.exp_zero]

theorem key_poly1 {y P : ℝ} (hy : 0 ≤ y) (hcube : (1 + y/3)^3 ≤ P) :
    0 < (1/100) * P + 1/50 - (1/50) * y := by
  nlinarith [mul_nonneg hy (sq_nonneg (y - 3)), sq_nonneg (5*y - 6)]

theorem key_poly2 {y P : ℝ} (hy : 0 ≤ y) (hcube : (1 + y/3)^3 ≤ P) :
    0 < (1/100 + 140*y) * P + 1/50 + (27998/100)*y - 400*y^2 := by
  have hcoef : (0:ℝ) ≤ 1/100 + 140*y := by linarith
  have hmul := mul_le_mul_of_nonneg_left hcube hcoef
  nlinarith [hmul, mul_nonneg hy (sq_nonneg (14*y - 39)),
    mul_nonneg (mul_nonneg hy hy) (mul_nonneg hy hy), mul_nonneg (mul_nonneg hy hy) hy]

theorem hasDerivAt_FV (v : ℝ) :
    HasDerivAt (fun w => F_val w * w)
      (C_0_02 * (Real.exp (C_NEG_0_00005 * v) * C_NEG_0_00005) * v + F_val v) v := by
  have h1 : HasDerivAt (fun w : ℝ => C_NEG_0_00005 * w) C_NEG_0_00005 v := by
    simpa using (hasDerivAt_id v).const_mul C_NEG_0_00005
  have h2 : HasDerivAt (fun w => Real.exp (C_NEG_0_00005 * w))
      (Real.exp (C_NEG_0_00005 * v) * C_NEG_0_00005) v := h1.exp
  have h3 : HasDerivAt F_val (C_0_02 * (Real.exp (C_NEG_0_00005 * v) * C_NEG_0_00005)) v :=
    (h2.const_mul C_0_02).const_add C_0_01
  have h4 := h3.mul (hasDerivAt_id v)
  simpa using h4

theorem FV_deriv_pos {v : ℝ} (hv : 0 ≤ v) :
    0 < C_0_02 * (Real.exp (C_NEG_0_00005 * v) * C_NEG_0_00005) * v + F_val v := by
  have harg : C_NEG_0_00005 * v = -(v/20000) := by rw [C_NEG_0_00005_eq]; ring
  have hy : (0:ℝ) ≤ v/20000 := by linarith
  have hcube := one_add_third_cube_le_exp hy
  have hEpos : 0 < Real.exp (-(v/20000)) := Real.exp_pos _
  have hPE := exp_prod_one v
  have hkey := key_poly1 hy hcube
  have hmul := mul_pos hkey hEpos
  simp only [F_val]
  rw [harg, C_0_01_eq, C_0_02_eq, C_NEG_0_00005_eq]
  nlinarith [hmul, hPE, hEpos]

theorem continuous_FV : Continuous (fun w : ℝ => F_val w * w) := by
  have hF : Continuous F_val := by
    show Continuous fun w : ℝ => C_0_01 + (C_0_02 * Real.exp (C_NEG_0_00005 * w))
    exact continuous_const.add
      (continuous_const.mul (Real.continuous_exp.comp (continuous_const.mul continuous_id)))
  exact hF.mul continuous_id

theorem FV_strictMonoOn : StrictMonoOn (fun w : ℝ => F_val w * w) (Set.Ici 0) := by
  apply strictMonoOn_of_deriv_pos (convex_Ici 0)
  · exact continuous_FV.continuousOn
  · intro x hx
    rw [interior_Ici] at hx
    rw [(hasDerivAt_FV x).deriv]
    exact FV_deriv_pos (le_of_lt hx)

theorem TR_val_mono {v1 v2 : ℝ} (h1 : 0 ≤ v1) (h12 : v1 ≤ v2) : TR_val v1 ≤ TR_val v2 := by
  have h2 : (0:ℝ) ≤ v2 := le_trans h1 h12
  have hm : F_val v1 * v1 ≤ F_val v2 * v2 :=
    FV_strictMonoOn.monotoneOn (Set.mem_Ici.mpr h1) (Set.mem_Ici.mpr h2) h12
  rw [TR_val, TR_val, C_0_1_eq]
  linarith

theorem potTI_val_mono {v1 v2 : ℝ} (h1 : 0 ≤ v1) (h12 : v1 ≤ v2) :
    potTI_val v1 ≤ potTI_val v2 := by
  have hb : (0:ℝ) ≤ 1 + v1 := by linarith
  have hbb : 1 + v1 ≤ 1 + v2 := by linarith
  have hp : (0:ℝ) ≤ POWER_EXPONENT := by rw [POWER_EXPONENT_eq]; norm_num
  have := Real.rpow_le_rpow hb hbb hp
  rw [potTI_val, potTI_val, C_0_1_eq]
  linarith

theorem cap_val_mono {v1 v2 : ℝ} (h1 : 0 ≤ v1) (h12 : v1 ≤ v2) :
    cap_val v1 ≤ cap_val v2 := by
  have := TR_val_mono h1 h12
  rw [cap_val, cap_val, MAX_TI_FRACTION_eq]
  linarith

/-! The capping ratio `phi` is strictly increasing on the valid domain. -/

theorem hasDerivAt_phi {v : ℝ} (hv : 0 < v) :
    HasDerivAt phi
      ((C_0_02 * (Real.exp (C_NEG_0_00005 * v) * C_NEG_0_00005) * v + F_val v)
          * ((1 + v) ^ (-POWER_EXPONENT))
        + (F_val v * v) * (1 * (-POWER_EXPONENT) * (1 + v) ^ (-POWER_EXPONENT - 1))) v := by
  have h1v : (0:ℝ) < 1 + v := by linarith
  have hFV := hasDerivAt_FV v
  have hb : HasDerivAt (fun w : ℝ => 1 + w) 1 v := (hasDerivAt_id v).const_add 1
  have hr : HasDerivAt (fun w : ℝ => (1 + w) ^ (-POWER_EXPONENT))
      (1 * (-POWER_EXPONENT) * (1 + v) ^ (-POWER_EXPONENT - 1)) v :=
    hb.rpow_const (Or.inl (ne_of_gt h1v))
  exact hFV.mul hr

theorem phi_bracket_pos {v : ℝ} (hv : 0 < v) :
    0 < (C_0_02 * (Real.exp (C_NEG_0_00005 * v) * C_NEG_0_00005) * v + F_val v) * (1 + v)
        - POWER_EXPONENT * (F_val v * v) := by
  have harg : C_NEG_0_00005 * v = -(v/20000) := by rw [C_NEG_0_00005_eq]; ring
  have hy : (0:ℝ) ≤ v/20000 := by linarith
  have hcube := one_add_third_cube_le_exp hy
  have hEpos : 0 < Real.exp (-(v/20000)) := Real.exp_pos _
  have hPE := exp_prod_one v
  have hvPE : v * (Real.exp (v/20000) * Real.exp (-(v/20000))) = v := by
    rw [hPE, mul_one]
  have hkey := key_poly2 hy hcube
  have hmul := mul_pos hkey hEpos
  simp only [F_val]
  rw [harg, C_0_01_eq, C_0_02_eq, C_NEG_0_00005_eq, POWER_EXPONENT_eq]
  nlinarith [hmul, hPE, hvPE, hEpos, hv.le]

theorem phi_deriv_pos {v : ℝ} (hv : 0 < v) :
    0 < (C_0_02 * (Real.exp (C_NEG_0_00005 * v) * C_NEG_0_00005) * v + F_val v)
          * ((1 + v) ^ (-POWER_EXPONENT))
        + (F_val v * v) * (1 * (-POWER_EXPONENT) * (1 + v) ^ (-POWER_EXPONENT - 1)) := by
  have h1v : (0:ℝ) < 1 + v := by linarith
  have hsplit : (1 + v) ^ (-POWER_EXPONENT) = (1 + v) * (1 + v) ^ (-POWER_EXPONENT - 1) := by
    have h := Real.rpow_add h1v 1 (-POWER_EXPONENT - 1)
    rw [show (1:ℝ) + (-POWER_EXPONENT - 1) = -POWER_EXPONENT by ring] at h
    rw [h, Real.rpow_one]
  have hB : 0 < (1 + v) ^ (-POWER_EXPONENT - 1) := Real.rpow_pos_of_pos h1v _
  have hbr := phi_bracket_pos hv
  have hprod := mul_pos hbr hB
  rw [hsplit]
  nlinarith [hprod, hB]

theorem phi_continuousOn : ContinuousOn phi (Set.Ici 0) := by
  apply ContinuousOn.mul
  · exact continuous_FV.continuousOn
  · apply ContinuousOn.rpow_const
    · exact (continuous_const.add continuous_id).continuousOn
    · intro x hx
      left
      have hx0 : (0:ℝ) ≤ x := hx
      have : (0:ℝ) < 1 + x := by linarith
      exact ne_of_gt this

theorem phi_strictMonoOn : StrictMonoOn phi (Set.Ici 0) := by
  apply strictMonoOn_of_deriv_pos (convex_Ici 0) phi_continuousOn
  intro x hx
  rw [interior_Ici] at hx
  rw [(hasDerivAt_phi hx).deriv]
  exact phi_deriv_pos hx

/-! `phi` starts below 3 and exceeds 3 at `v = 100000`, so the reward switches
from capped to uncapped. -/

theorem phi_zero : phi 0 = 0 := by
  rw [phi]
  ring

theorem phi_100000_gt_3 : 3 < phi 100000 := by
  have h1v : (0:ℝ) < 1 + 100000 := by norm_num
  have hA : (0:ℝ) < (1 + 100000 : ℝ) ^ POWER_EXPONENT := Real.rpow_pos_of_pos h1v _
  have hup : (1 + 100000 : ℝ) ^ POWER_EXPONENT < 1000/3 := by
    have hle : (1 + 100000 : ℝ) ^ POWER_EXPONENT ≤ (1 + 100000 : ℝ) ^ ((1:ℝ)/2) := by
      apply Real.rpow_le_rpow_of_exponent_le (by norm_num)
      rw [POWER_EXPONENT_eq]; norm_num
    have hsq : (1 + 100000 : ℝ) ^ ((1:ℝ)/2) < 1000/3 := by
      rw [show ((1:ℝ)/2) = 1/(2:ℝ) by norm_num, ← Real.sqrt_eq_rpow]
      rw [Real.sqrt_lt' (by norm_num : (0:ℝ) < 1000/3)]
      norm_num
    linarith
  have hinv : (1 + 100000 : ℝ) ^ (-POWER_EXPONENT)
      = ((1 + 100000 : ℝ) ^ POWER_EXPONENT)⁻¹ := Real.rpow_neg (by norm_num) _
  have hIpos : (0:ℝ) < ((1 + 100000 : ℝ) ^ POWER_EXPONENT)⁻¹ := inv_pos.mpr hA
  have hAI : (1 + 100000 : ℝ) ^ POWER_EXPONENT * ((1 + 100000 : ℝ) ^ POWER_EXPONENT)⁻¹ = 1 :=
    mul_inv_cancel₀ (ne_of_gt hA)
  have hF := F_val_gt 100000
  rw [C_0_01_eq] at hF
  rw [phi, hinv]
  nlinarith [mul_pos (sub_pos.mpr hup) hIpos, mul_pos (sub_pos.mpr hF) hIpos, hAI, hIpos]

/-! Comparing the potential reward with the cap via `phi`. -/

theorem phi_as_div {v : ℝ} (hv : 0 ≤ v) :
    phi v = F_val v * v / ((1 + v) ^ POWER_EXPONENT) := by
  have h1v : (0:ℝ) ≤ 1 + v := by linarith
  rw [phi, Real.rpow_neg h1v, div_eq_mul_inv]

theorem pot_le_cap_iff {v : ℝ} (hv : 0 ≤ v) : potTI_val v ≤ cap_val v ↔ 3 ≤ phi v := by
  have h1v : (0:ℝ) < 1 + v := by linarith
  have hApos : (0:ℝ) < (1 + v) ^ POWER_EXPONENT := Real.rpow_pos_of_pos h1v _
  rw [phi_as_div hv, le_div_iff₀ hApos]
  simp only [potTI_val, cap_val, TR_val, MAX_TI_FRACTION_eq, C_0_1_eq]
  constructor
  · intro h; nlinarith [h, hApos]
  · intro h; nlinarith [h, hApos]

theorem pot_lt_cap_iff {v : ℝ} (hv : 0 ≤ v) : potTI_val v < cap_val v ↔ 3 < phi v := by
  have h1v : (0:ℝ) < 1 + v := by linarith
  have hApos : (0:ℝ) < (1 + v) ^ POWER_EXPONENT := Real.rpow_pos_of_pos h1v _
  rw [phi_as_div hv, lt_div_iff₀ hApos]
  simp only [potTI_val, cap_val, TR_val, MAX_TI_FRACTION_eq, C_0_1_eq]
  constructor
  · intro h; nlinarith [h, hApos]
  · intro h; nlinarith [h, hApos]

theorem cap_lt_pot_iff {v : ℝ} (hv : 0 ≤ v) : cap_val v < potTI_val v ↔ phi v < 3 := by
  rw [← not_le, ← not_le, not_iff_not]
  exact pot_le_cap_iff hv

theorem TI_val_eq_cap {v : ℝ} (hv : 0 ≤ v) (h : phi v < 3) : TI_val v = cap_val v := by
  have hc : cap_val v < potTI_val v := (cap_lt_pot_iff hv).mpr h
  simp only [TI_val]
  rw [min_eq_right hc.le, max_eq_right (cap_val_nonneg hv)]

theorem TI_val_eq_pot {v : ℝ} (hv : 0 ≤ v) (h : 3 ≤ phi v) : TI_val v = potTI_val v := by
  have hc : potTI_val v ≤ cap_val v := (pot_le_cap_iff hv).mpr h
  simp only [TI_val]
  rw [min_eq_left hc, max_eq_right (potTI_val_pos hv).le]

/-! The set of volumes at which the reward is uncapped, and its least
element: the capping crossover. -/

/-- Volumes `v ≥ 0` at which the potential reward already reaches the cap. -/
def S_cap : Set ℝ := Set.Ici 0 ∩ Set.preimage phi (Set.Ici 3)

theorem mem_S_cap_100000 : (100000:ℝ) ∈ S_cap :=
  Set.mem_inter (Set.mem_Ici.mpr (by norm_num))
    (Set.mem_Ici.mpr (le_of_lt phi_100000_gt_3))

theorem S_cap_nonempty : S_cap.Nonempty := ⟨100000, mem_S_cap_100000⟩

theorem S_cap_bddBelow : BddBelow S_cap := ⟨0, fun _ hx => hx.1⟩

theorem S_cap_closed : IsClosed S_cap :=
  phi_continuousOn.preimage_isClosed_of_isClosed isClosed_Ici isClosed_Ici

theorem sInf_S_cap_mem : sInf S_cap ∈ S_cap :=
  S_cap_closed.csInf_mem S_cap_nonempty S_cap_bddBelow

/-! The claims. -/

/-- C1 as stated is false: no threshold `V*` exists with the reward uncapped
(`TI = TI_pot`) below `V*` and capped (`TI = TR/3`) above it.  The code caps
in the opposite direction: at every `v ≥ max V* 100000` the potential reward
is strictly below the cap, so `TI = TI_pot ≠ TR/3` there, contradicting the
second conjunct at the concrete input `max V* 100000`. -/
theorem c1_capping_boundary_counterexample :
    ¬ ∃ Vstar : ℝ, 0 ≤ Vstar ∧
      (∀ v tr ti : ℝ, 0 ≤ v → v < Vstar → calculate_TR_and_TI v = .ok (tr, ti) →
        calculate_potential_TI v = .ok ti) ∧
      (∀ v tr ti : ℝ, Vstar ≤ v → calculate_TR_and_TI v = .ok (tr, ti) →
        ti = tr / 3) := by
  rintro ⟨Vstar, hVs0, _hlow, hhigh⟩
  have hv0 : (0:ℝ) ≤ max Vstar 100000 := le_trans hVs0 (le_max_left _ _)
  have h100 : (100000:ℝ) ≤ max Vstar 100000 := le_max_right _ _
  have hphi : 3 < phi (max Vstar 100000) :=
    lt_of_lt_of_le phi_100000_gt_3
      (phi_strictMonoOn.monotoneOn (Set.mem_Ici.mpr (by norm_num))
        (Set.mem_Ici.mpr hv0) h100)
  have hpc : potTI_val (max Vstar 100000) < cap_val (max Vstar 100000) :=
    (pot_lt_cap_iff hv0).mpr hphi
  have heq := hhigh (max Vstar 100000) (TR_val (max Vstar 100000))
    (TI_val (max Vstar 100000)) (le_max_left _ _) (calculate_TR_and_TI_eval hv0)
  rw [TI_val_eq_pot hv0 (le_of_lt hphi)] at heq
  rw [cap_val, MAX_TI_FRACTION_eq] at hpc
  linarith

/-- C1 (amended): there exists a threshold `V* ≥ 0` such that for
`0 ≤ V < V*` the reward is capped (`TI = TR/3`), and for `V ≥ V*` it is
uncapped (`TI = PotentialReward(V)`) — the two regimes of the original
claim swapped. -/
theorem c1_capping_boundary_amended :
    ∃ Vstar : ℝ, 0 ≤ Vstar ∧
      (∀ v tr ti : ℝ, 0 ≤ v → v < Vstar → calculate_TR_and_TI v = .ok (tr, ti) →
        ti = tr / 3) ∧
      (∀ v tr ti : ℝ, Vstar ≤ v → calculate_TR_and_TI v = .ok (tr, ti) →
        calculate_potential_TI v = .ok ti) := by
  obtain ⟨hm0, hm3⟩ := sInf_S_cap_mem
  refine ⟨sInf S_cap, hm0, ?_, ?_⟩
  · intro v tr ti hv hlt heq
    have hnotmem : v ∉ S_cap := fun hmem =>
      absurd (csInf_le S_cap_bddBelow hmem) (not_le.mpr hlt)
    have hphi : phi v < 3 := by
      by_contra hge
      exact hnotmem (Set.mem_inter (Set.mem_Ici.mpr hv) (Set.mem_Ici.mpr (not_lt.mp hge)))
    rw [calculate_TR_and_TI_eval hv] at heq
    simp only [Except.ok.injEq, Prod.mk.injEq] at heq
    obtain ⟨htr, hti⟩ := heq
    rw [← hti, ← htr, TI_val_eq_cap hv hphi, cap_val, MAX_TI_FRACTION_eq]
    ring
  · intro v tr ti hVs heq
    have hv : 0 ≤ v := le_trans (Set.mem_Ici.mp hm0) hVs
    have hphi : 3 ≤ phi v :=
      le_trans (Set.mem_Ici.mp hm3)
        (phi_strictMonoOn.monotoneOn hm0 (Set.mem_Ici.mpr hv) hVs)
    rw [calculate_TR_and_TI_eval hv] at heq
    simp only [Except.ok.injEq, Prod.mk.injEq] at heq
    obtain ⟨htr, hti⟩ := heq
    rw [calculate_potential_TI_eval hv, ← hti, TI_val_eq_pot hv hphi]

/-- C2: for every `V ≥ 0`, `calculate_TR_and_TI` returns a pair `(TR, TI)`
with `TR ≥ 0` and `0 ≤ TI ≤ TR/3`. -/
theorem c2_output_bounds (v : ℝ) (hv : 0 ≤ v) :
    ∃ tr ti : ℝ, calculate_TR_and_TI v = .ok (tr, ti) ∧ 0 ≤ tr ∧ 0 ≤ ti ∧ ti ≤ tr / 3 := by
  refine ⟨TR_val v, TI_val v, calculate_TR_and_TI_eval hv, TR_val_nonneg hv,
    le_max_left _ _, ?_⟩
  have hcap : cap_val v = TR_val v / 3 := by rw [cap_val, MAX_TI_FRACTION_eq]; ring
  rw [← hcap]
  exact max_le (cap_val_nonneg hv) (min_le_right _ _)

/-- C2 witness at `V = 1`. -/
theorem c2_output_bounds_witness :
    ∃ tr ti : ℝ, calculate_TR_and_TI 1 = .ok (tr, ti) ∧ 0 ≤ tr ∧ 0 ≤ ti ∧ ti ≤ tr / 3 :=
  c2_output_bounds 1 zero_le_one

/-- C3: `calculate_TR_and_TI 0` returns exactly `(0, 0)`; the potential
reward at 0 is `1/C_0_1 > 0` but the cap `(1/3)*TR(0)` is 0, so TI is
capped down to 0. -/
theorem c3_evaluate_zero :
    calculate_TR_and_TI 0 = .ok (0, 0) ∧
      calculate_potential_TI 0 = .ok (1 / C_0_1) ∧ 0 < 1 / C_0_1 := by
  refine ⟨?_, ?_, by rw [C_0_1_eq]; norm_num⟩
  · rw [calculate_TR_and_TI_eval le_rfl]
    have hphi0 : phi 0 < 3 := by rw [phi_zero]; norm_num
    have h2 : TI_val 0 = 0 := by
      rw [TI_val_eq_cap le_rfl hphi0, cap_val, TR_val_zero, MAX_TI_FRACTION_eq]
      ring
    rw [TR_val_zero, h2]
  · rw [calculate_potential_TI_eval le_rfl]
    have h1 : ((1:ℝ) + 0) ^ POWER_EXPONENT = 1 := by rw [add_zero, Real.one_rpow]
    rw [potTI_val, h1]

/-- C4: for every `V ≥ 0`, `calculate_TR_and_TI` equals the reference
pipeline written from the spec: `TR = Cost(V)` with `Cost(0) = 0`
short-circuited and `Cost(V) = UnitFactor(V)*V/c3` otherwise,
`TI_pot = (1+V)^p / c3`, and the pair `(TR, max(0, min(TI_pot, (1/3)*TR)))`. -/
theorem c4_reference_pipeline (v : ℝ) (hv : 0 ≤ v) :
    calculate_TR_and_TI v = .ok (spec_Evaluate v) := by
  rw [calculate_TR_and_TI_eval hv]
  have hcost : spec_Cost v = TR_val v := by
    by_cases hz : v = 0
    · subst hz
      rw [spec_Cost, if_pos rfl, TR_val_zero]
      norm_num
    · simp only [spec_Cost, if_neg hz, spec_UnitFactor, TR_val, F_val, C_0_01, C_0_02,
        C_NEG_0_00005, C_0_1]
  have hpot : spec_PotentialReward v = potTI_val v := by
    simp only [spec_PotentialReward, potTI_val, POWER_EXPONENT, C_0_1]
  simp only [spec_Evaluate, hcost, hpot, TI_val, cap_val, MAX_TI_FRACTION_OF_TR]

/-- C4 witness at `V = 1`. -/
theorem c4_reference_pipeline_witness : calculate_TR_and_TI 1 = .ok (spec_Evaluate 1) :=
  c4_reference_pipeline 1 zero_le_one

/-- C5: for every `V < 0` each of the four operations fails with
`ValueError` (`InvalidInput`), and no computation proceeds. -/
theorem c5_negative_input (v : ℝ) (hv : v < 0) :
    _F v = .error .valueError ∧ calculate_TR v = .error .valueError ∧
      calculate_potential_TI v = .error .valueError ∧
      calculate_TR_and_TI v = .error .valueError := by
  refine ⟨?_, ?_, ?_, ?_⟩ <;>
    simp only [_F, calculate_TR, calculate_potential_TI, calculate_TR_and_TI, if_pos hv]

/-- C5 witness at `V = -1`. -/
theorem c5_negative_input_witness :
    _F (-1) = .error .valueError ∧ calculate_TR (-1) = .error .valueError ∧
      calculate_potential_TI (-1) = .error .valueError ∧
      calculate_TR_and_TI (-1) = .error .valueError :=
  c5_negative_input (-1) neg_one_lt_zero

/-- C6: the cost is monotone: for `0 ≤ V1 ≤ V2`, the value returned by
`calculate_TR` at `V1` is at most the one at `V2`. -/
theorem c6_cost_monotone (v1 v2 : ℝ) (h1 : 0 ≤ v1) (h12 : v1 ≤ v2) :
    ∀ r1 r2 : ℝ, calculate_TR v1 = .ok r1 → calculate_TR v2 = .ok r2 → r1 ≤ r2 := by
  intro r1 r2 he1 he2
  rw [calculate_TR_eval h1] at he1
  rw [calculate_TR_eval (le_trans h1 h12)] at he2
  simp only [Except.ok.injEq] at he1 he2
  rw [← he1, ← he2]
  exact TR_val_mono h1 h12

/-- C6 witness at `V1 = 1`, `V2 = 2`. -/
theorem c6_cost_monotone_witness : TR_val 1 ≤ TR_val 2 :=
  c6_cost_monotone 1 2 zero_le_one one_le_two (TR_val 1) (TR_val 2)
    (calculate_TR_eval zero_le_one) (calculate_TR_eval zero_le_two)

/-- C7: for every `V ≥ 0` the unit factor returned by `_F` lies in
`(C_0_01, C_0_01 + C_0_02]`, attaining the upper bound exactly at `V = 0`. -/
theorem c7_unit_factor_range (v : ℝ) (hv : 0 ≤ v) :
    ∃ f : ℝ, _F v = .ok f ∧ C_0_01 < f ∧ f ≤ C_0_01 + C_0_02 ∧
      (f = C_0_01 + C_0_02 ↔ v = 0) := by
  refine ⟨F_val v, F_eval hv, F_val_gt v, ?_, ?_, ?_⟩
  · have hkv : C_NEG_0_00005 * v ≤ 0 := by
      rw [C_NEG_0_00005_eq]
      nlinarith [hv]
    have hexp : Real.exp (C_NEG_0_00005 * v) ≤ 1 := Real.exp_le_one_iff.mpr hkv
    rw [F_val, C_0_02_eq]
    nlinarith [hexp]
  · intro hf
    have hE : Real.exp (C_NEG_0_00005 * v) = 1 := by
      rw [F_val] at hf
      have h2 : C_0_02 * Real.exp (C_NEG_0_00005 * v) = C_0_02 := by linarith
      rw [C_0_02_eq] at h2
      linarith
    have harg : C_NEG_0_00005 * v = 0 := by rwa [Real.exp_eq_one_iff] at hE
    rcases mul_eq_zero.mp harg with hk | hvz
    · exfalso
      rw [C_NEG_0_00005_eq] at hk
      norm_num at hk
    · exact hvz
  · intro hvz
    subst hvz
    rw [F_val]
    norm_num

/-- C7 witness at `V = 0`. -/
theorem c7_unit_factor_range_witness :
    ∃ f : ℝ, _F 0 = .ok f ∧ C_0_01 < f ∧ f ≤ C_0_01 + C_0_02 ∧
      (f = C_0_01 + C_0_02 ↔ (0:ℝ) = 0) :=
  c7_unit_factor_range 0 le_rfl

/-- C8: the division-by-zero guard is unreachable: `C_0_1 ≠ 0`, and for
every `V ≥ 0` both `calculate_TR` and `calculate_potential_TI` succeed
(never reach the `ZeroDivisionError` branch). -/
theorem c8_divzero_guard_unreachable (v : ℝ) (hv : 0 ≤ v) :
    C_0_1 ≠ 0 ∧ (∃ r : ℝ, calculate_TR v = .ok r) ∧
      ∃ r : ℝ, calculate_potential_TI v = .ok r :=
  ⟨C_0_1_ne, ⟨TR_val v, calculate_TR_eval hv⟩,
    ⟨potTI_val v, calculate_potential_TI_eval hv⟩⟩

/-- C8 witness at `V = 2`. -/
theorem c8_divzero_guard_unreachable_witness :
    C_0_1 ≠ 0 ∧ (∃ r : ℝ, calculate_TR 2 = .ok r) ∧
      ∃ r : ℝ, calculate_potential_TI 2 = .ok r :=
  c8_divzero_guard_unreachable 2 zero_le_two

/-- C9: the final reward is monotone in volume: for `0 ≤ V1 ≤ V2` the TI
component returned by `calculate_TR_and_TI` at `V1` is at most the one at
`V2`. -/
theorem c9_reward_monotone (v1 v2 : ℝ) (h1 : 0 ≤ v1) (h12 : v1 ≤ v2) :
    ∀ p q : ℝ × ℝ, calculate_TR_and_TI v1 = .ok p → calculate_TR_and_TI v2 = .ok q →
      p.2 ≤ q.2 := by
  intro p q he1 he2
  rw [calculate_TR_and_TI_eval h1] at he1
  rw [calculate_TR_and_TI_eval (le_trans h1 h12)] at he2
  simp only [Except.ok.injEq] at he1 he2
  rw [← he1, ← he2]
  have hmin : min (potTI_val v1) (cap_val v1) ≤ min (potTI_val v2) (cap_val v2) :=
    min_le_min (potTI_val_mono h1 h12) (cap_val_mono h1 h12)
  exact max_le_max le_rfl hmin

/-- C9 witness at `V1 = 1`, `V2 = 2`. -/
theorem c9_reward_monotone_witness : TI_val 1 ≤ TI_val 2 :=
  c9_reward_monotone 1 2 zero_le_one one_le_two (TR_val 1, TI_val 1) (TR_val 2, TI_val 2)
    (calculate_TR_and_TI_eval zero_le_one) (calculate_TR_and_TI_eval zero_le_two)

/-- C10: the `max(0.0, ...)` floor is a no-op: the variant without the
floor is equal to `calculate_TR_and_TI` on the whole domain, because for
`V ≥ 0` the min of the potential reward and the cap is already `≥ 0`. -/
theorem c10_floor_noop (v : ℝ) :
    calculate_TR_and_TI_nofloor v = calculate_TR_and_TI v ∧
      (0 ≤ v → 0 ≤ min (potTI_val v) (cap_val v)) := by
  constructor
  · by_cases hv : v < 0
    · simp only [calculate_TR_and_TI_nofloor, calculate_TR_and_TI, if_pos hv]
    · have hv0 : (0:ℝ) ≤ v := not_lt.mp hv
      rw [calculate_TR_and_TI_nofloor_eval hv0, calculate_TR_and_TI_eval hv0]
      have hmin : 0 ≤ min (potTI_val v) (cap_val v) :=
        le_min (potTI_val_pos hv0).le (cap_val_nonneg hv0)
      simp only [TI_val]
      rw [max_eq_right hmin]
  · intro hv0
    exact le_min (potTI_val_pos hv0).le (cap_val_nonneg hv0)

/-- C10 witness at `V = 1`. -/
theorem c10_floor_noop_witness :
    calculate_TR_and_TI_nofloor 1 = calculate_TR_and_TI 1 ∧
      0 ≤ min (potTI_val 1) (cap_val 1) :=
  ⟨(c10_floor_noop 1).1, (c10_floor_noop 1).2 zero_le_one⟩

end

end Swoupon
